import Mathlib

/-!
Verification of the plumber pipeline-compliance analyzer.

This file gives a shallow embedding, in Lean 4, of the core algorithms of the
getplumber/plumber repository and proves (or refutes) the frozen claims about
it.  Each definition is translated from the Go source; the file comments name
the source file and function each definition embeds.  Go strings are modelled
as Lean `String`s (lists of characters); Go `int` is modelled as `Int`;
Go maps are modelled as association lists where the first binding for a key
wins (Go map keys are unique, so this is faithful).  Recursions that Go
expresses as index loops are expressed with an explicit fuel argument equal to
the length of the scanned list, so that every definition computes by `decide`
or `rfl`; the fuel is always sufficient because each step consumes at least
one character.
-/

namespace Plumber

/-! ## Go string primitives

Character-list implementations of the `strings` standard-library functions the
embedded code uses (`Contains`, `Index`, `LastIndex`, `Count`, `Split`,
`ReplaceAll`, `HasPrefix`/`HasSuffix`, `TrimPrefix`/`TrimSuffix`,
`TrimSpace`).  They operate on `List Char` and are wrapped for `String`. -/

/-- Go `strings.Contains sub` on character lists: some suffix starts with `sub`. -/
def containsSubCL (sub : List Char) : List Char → Bool
  | [] => sub.isEmpty
  | c :: cs => sub.isPrefixOf (c :: cs) || containsSubCL sub cs

/-- Go `strings.Contains s sub`. -/
def goContains (s sub : String) : Bool := containsSubCL sub.data s.data

/-- Go `strings.Index s sub`: index of the first occurrence of `sub`, `-1` if none. -/
def indexOfSubCL (sub : List Char) : List Char → Int
  | [] => if sub.isEmpty then 0 else -1
  | c :: cs =>
    if sub.isPrefixOf (c :: cs) then 0
    else
      let r := indexOfSubCL sub cs
      if r ≥ 0 then r + 1 else -1

/-- Go `strings.Index s sub`. -/
def goIndex (s sub : String) : Int := indexOfSubCL sub.data s.data

/-- Go `strings.LastIndex s sub`: index of the last occurrence of `sub`, `-1` if none. -/
def lastIndexOfSubCL (sub : List Char) : List Char → Int
  | [] => if sub.isEmpty then 0 else -1
  | c :: cs =>
    let r := lastIndexOfSubCL sub cs
    if r ≥ 0 then r + 1
    else if sub.isPrefixOf (c :: cs) then 0
    else -1

/-- Go `strings.LastIndex s sub`. -/
def goLastIndex (s sub : String) : Int := lastIndexOfSubCL sub.data s.data

/-- Go `strings.Count s sub` for a single-character `sub`: occurrence count. -/
def goCountChar (s : String) (c : Char) : Nat := s.data.count c

/-- Go slice `s[i:]` (byte index modelled as character index). -/
def goFrom (s : String) (i : Int) : String := String.mk (s.data.drop i.toNat)

/-- Go slice `s[:i]`. -/
def goUpTo (s : String) (i : Int) : String := String.mk (s.data.take i.toNat)

/-- Go `strings.HasPrefix`. -/
def goHasPre (s pre : String) : Bool := pre.data.isPrefixOf s.data

/-- Go `strings.HasSuffix`. -/
def goHasSuf (s suf : String) : Bool := suf.data.isSuffixOf s.data

/-- Go `strings.TrimPrefix`. -/
def goTrimPre (s pre : String) : String :=
  if goHasPre s pre then goFrom s pre.length else s

/-- Go `strings.TrimSuffix`. -/
def goTrimSuf (s suf : String) : String :=
  if goHasSuf s suf then goUpTo s (s.length - suf.length : Int) else s

/-- ASCII whitespace, the fragment of Go `unicode.IsSpace` relevant here. -/
def isSpaceChar (c : Char) : Bool :=
  c == ' ' || c == '\t' || c == '\n' || c == '\r' || c == '\x0b' || c == '\x0c'

/-- Go `strings.TrimSpace` (ASCII fragment). -/
def goTrimSpace (s : String) : String :=
  String.mk (((s.data.dropWhile isSpaceChar).reverse.dropWhile isSpaceChar).reverse)

/-- Go `strings.Split s sep` for non-empty `sep`, with fuel; each step consumes
at least one character, so fuel `length + 1` is always enough. -/
def splitOnSubF (sep : List Char) : Nat → List Char → List (List Char)
  | 0, l => [l]
  | _ + 1, [] => [[]]
  | fuel + 1, c :: cs =>
    if sep.isPrefixOf (c :: cs) then
      [] :: splitOnSubF sep fuel ((c :: cs).drop sep.length)
    else
      match splitOnSubF sep fuel cs with
      | [] => [[c]]
      | p :: ps => (c :: p) :: ps

/-- Go `strings.Split s sep` (`sep` non-empty in every use below). -/
def goSplit (s sep : String) : List String :=
  (splitOnSubF sep.data (s.data.length + 1) s.data).map String.mk

/-- Go `strings.ReplaceAll s pat rep` for non-empty `pat`, with fuel. -/
def replaceAllSubF (pat rep : List Char) : Nat → List Char → List Char
  | 0, l => l
  | _ + 1, [] => []
  | fuel + 1, c :: cs =>
    if pat.isPrefixOf (c :: cs) then
      rep ++ replaceAllSubF pat rep fuel ((c :: cs).drop pat.length)
    else
      c :: replaceAllSubF pat rep fuel cs

/-- Go `strings.ReplaceAll s pat rep` (`pat` non-empty in every use below). -/
def goReplaceAll (s pat rep : String) : String :=
  String.mk (replaceAllSubF pat.data rep.data (s.data.length + 1) s.data)

/-- First-binding lookup in an association list, modelling a Go map read. -/
def assocFind {α : Type} (m : List (String × α)) (key : String) : Option α :=
  match m with
  | [] => none
  | (k, v) :: rest => if k = key then some v else assocFind rest key

/-- Key-presence test, modelling Go's `_, ok := m[key]`. -/
def assocHasKey {α : Type} (m : List (String × α)) (key : String) : Bool :=
  (assocFind m key).isSome

/-- In-place update of the first binding of a key, modelling `m[key] = v` for a
key already present. -/
def assocUpdate {α : Type} (m : List (String × α)) (key : String) (v : α) :
    List (String × α) :=
  match m with
  | [] => []
  | (k, w) :: rest =>
    if k = key then (k, v) :: rest else (k, w) :: assocUpdate rest key v

/-! ## Wildcard matching

Model of the third-party `IGLOU-EU/go-wildcard` `Match` function, as used and
documented by the source (`part_001` notes the library interprets `*`, `?` and
`.`): `*` matches any sequence of characters, `?` and `.` match exactly one
character, everything else matches itself.  Fuel-based so that concrete
instances evaluate by `decide`; fuel `pattern.length + s.length + 1` bounds the
recursion because every step shortens the pattern or the string. -/

def wildcardMatchF : Nat → List Char → List Char → Bool
  | 0, _, _ => false
  | _ + 1, [], [] => true
  | fuel + 1, '*' :: ps, [] => wildcardMatchF fuel ps []
  | _ + 1, _ :: _, [] => false
  | _ + 1, [], _ :: _ => false
  | fuel + 1, '*' :: ps, c :: cs =>
    wildcardMatchF fuel ps (c :: cs) || wildcardMatchF fuel ('*' :: ps) cs
  | fuel + 1, p :: ps, c :: cs =>
    (p == '?' || p == '.' || p == c) && wildcardMatchF fuel ps cs

/-- The `wildcard.Match pattern s` function of the go-wildcard library. -/
def wildcardMatch (pattern s : String) : Bool :=
  wildcardMatchF (pattern.data.length + s.data.length + 1) pattern.data s.data

/-! ## Branch Protection Merge

Embedding of `checkBranches` (source `part_001`, lines 544–631): the per-branch
merge of all matching protection rules, starting from the least permissive
baseline set at lines 544–551.  `gitlab.AccessLevelNo = 0` (`part_007`). -/

/-- Embeds `gitlab.BranchProtectionAccessLevel` (`part_009`). -/
structure BranchProtectionAccessLevel where
  accessLevel : Int
  accessLevelDescription : String
deriving DecidableEq, Repr

/-- Embeds `gitlab.BranchProtection` (`part_009`): one raw protection rule. -/
structure BranchProtection where
  protectionPattern : String
  allowForcePush : Bool
  codeOwnerApprovalRequired : Bool
  minPushAccessLevel : Int
  minMergeAccessLevel : Int
  pushAccessLevels : List BranchProtectionAccessLevel
  mergeAccessLevels : List BranchProtectionAccessLevel
deriving DecidableEq, Repr

/-- Embeds `BranchProtectionCompliance` (`part_001`), restricted to the fields the
merge loop reads or writes. -/
structure BranchProtectionCompliance where
  branchName : String
  isDefault : Bool
  protectedFlag : Bool
  protectionPattern : String
  allowForcePush : Bool
  codeOwnerApprovalRequired : Bool
  minMergeAccessLevel : Int
  minPushAccessLevel : Int
  mergeAccessLevels : List BranchProtectionAccessLevel
  pushAccessLevels : List BranchProtectionAccessLevel
deriving DecidableEq, Repr

/-- Baseline set by `checkBranches` lines 544–551: least permissive values. -/
def initBranchProtection (name : String) (isDefault : Bool) :
    BranchProtectionCompliance where
  branchName := name
  isDefault := isDefault
  protectedFlag := false
  protectionPattern := ""
  allowForcePush := false
  codeOwnerApprovalRequired := true
  minMergeAccessLevel := 0
  minPushAccessLevel := 0
  mergeAccessLevels := []
  pushAccessLevels := []

/-- Body of the merge-access-level loop (`part_001` lines 599–611): append the
entry, then lower the recorded minimum when the entry is non-zero and lower
than the current minimum (or when no minimum is recorded yet). -/
def mergeLevelStep (b : BranchProtectionCompliance)
    (lvl : BranchProtectionAccessLevel) : BranchProtectionCompliance :=
  let b1 := { b with mergeAccessLevels := b.mergeAccessLevels ++ [lvl] }
  if b1.minMergeAccessLevel = 0 ∨
      (lvl.accessLevel ≠ 0 ∧ lvl.accessLevel < b1.minMergeAccessLevel) then
    { b1 with minMergeAccessLevel := lvl.accessLevel }
  else b1

/-- Body of the push-access-level loop (`part_001` lines 614–626).  NOTE: the
source compares the candidate against `branch.MinMergeAccessLevel`, not
`branch.MinPushAccessLevel`, in the second disjunct; this embedding reproduces
that comparison exactly. -/
def pushLevelStep (b : BranchProtectionCompliance)
    (lvl : BranchProtectionAccessLevel) : BranchProtectionCompliance :=
  let b1 := { b with pushAccessLevels := b.pushAccessLevels ++ [lvl] }
  if b1.minPushAccessLevel = 0 ∨
      (lvl.accessLevel ≠ 0 ∧ lvl.accessLevel < b1.minMergeAccessLevel) then
    { b1 with minPushAccessLevel := lvl.accessLevel }
  else b1

/-- The merge-access-level loop over one rule's entries. -/
def applyMergeLevels : BranchProtectionCompliance →
    List BranchProtectionAccessLevel → BranchProtectionCompliance
  | b, [] => b
  | b, lvl :: rest => applyMergeLevels (mergeLevelStep b lvl) rest

/-- The push-access-level loop over one rule's entries. -/
def applyPushLevels : BranchProtectionCompliance →
    List BranchProtectionAccessLevel → BranchProtectionCompliance
  | b, [] => b
  | b, lvl :: rest => applyPushLevels (pushLevelStep b lvl) rest

/-- One iteration of the protection-rule loop (`part_001` lines 567–627): skip
rules whose pattern does not wildcard-match the branch name; otherwise mark the
branch protected, record the pattern, merge force-push and code-owner settings
keeping the most permissive value, then fold both access-level lists. -/
def applyProtectionRule (b : BranchProtectionCompliance)
    (rule : BranchProtection) : BranchProtectionCompliance :=
  if ¬ wildcardMatch rule.protectionPattern b.branchName then b
  else
    let b1 := { b with protectedFlag := true,
                       protectionPattern := rule.protectionPattern }
    let b2 := if ¬ b1.allowForcePush then
                { b1 with allowForcePush := rule.allowForcePush }
              else b1
    let b3 := if b2.codeOwnerApprovalRequired then
                { b2 with codeOwnerApprovalRequired :=
                            rule.codeOwnerApprovalRequired }
              else b2
    let b4 := applyMergeLevels b3 rule.mergeAccessLevels
    applyPushLevels b4 rule.pushAccessLevels

/-- The full merge of all protection rules into one branch's compliance record
(the inner loop of `checkBranches`, `part_001` lines 567–628). -/
def checkBranchProtections (b : BranchProtectionCompliance)
    (rules : List BranchProtection) : BranchProtectionCompliance :=
  rules.foldl applyProtectionRule b

/-! Helper lemmas for the branch-protection theorems. -/

theorem mergeLevelStep_allowForcePush (b : BranchProtectionCompliance)
    (lvl : BranchProtectionAccessLevel) :
    (mergeLevelStep b lvl).allowForcePush = b.allowForcePush := by
  simp only [mergeLevelStep]
  split <;> rfl

theorem mergeLevelStep_codeOwner (b : BranchProtectionCompliance)
    (lvl : BranchProtectionAccessLevel) :
    (mergeLevelStep b lvl).codeOwnerApprovalRequired =
      b.codeOwnerApprovalRequired := by
  simp only [mergeLevelStep]
  split <;> rfl

theorem mergeLevelStep_branchName (b : BranchProtectionCompliance)
    (lvl : BranchProtectionAccessLevel) :
    (mergeLevelStep b lvl).branchName = b.branchName := by
  simp only [mergeLevelStep]
  split <;> rfl

theorem pushLevelStep_allowForcePush (b : BranchProtectionCompliance)
    (lvl : BranchProtectionAccessLevel) :
    (pushLevelStep b lvl).allowForcePush = b.allowForcePush := by
  simp only [pushLevelStep]
  split <;> rfl

theorem pushLevelStep_codeOwner (b : BranchProtectionCompliance)
    (lvl : BranchProtectionAccessLevel) :
    (pushLevelStep b lvl).codeOwnerApprovalRequired =
      b.codeOwnerApprovalRequired := by
  simp only [pushLevelStep]
  split <;> rfl

theorem pushLevelStep_branchName (b : BranchProtectionCompliance)
    (lvl : BranchProtectionAccessLevel) :
    (pushLevelStep b lvl).branchName = b.branchName := by
  simp only [pushLevelStep]
  split <;> rfl

theorem applyMergeLevels_allowForcePush (ls : List BranchProtectionAccessLevel)
    (b : BranchProtectionCompliance) :
    (applyMergeLevels b ls).allowForcePush = b.allowForcePush := by
  induction ls generalizing b with
  | nil => rfl
  | cons lvl rest ih =>
    rw [applyMergeLevels, ih, mergeLevelStep_allowForcePush]

theorem applyMergeLevels_codeOwner (ls : List BranchProtectionAccessLevel)
    (b : BranchProtectionCompliance) :
    (applyMergeLevels b ls).codeOwnerApprovalRequired =
      b.codeOwnerApprovalRequired := by
  induction ls generalizing b with
  | nil => rfl
  | cons lvl rest ih =>
    rw [applyMergeLevels, ih, mergeLevelStep_codeOwner]

theorem applyPushLevels_allowForcePush (ls : List BranchProtectionAccessLevel)
    (b : BranchProtectionCompliance) :
    (applyPushLevels b ls).allowForcePush = b.allowForcePush := by
  induction ls generalizing b with
  | nil => rfl
  | cons lvl rest ih =>
    rw [applyPushLevels, ih, pushLevelStep_allowForcePush]

theorem applyPushLevels_codeOwner (ls : List BranchProtectionAccessLevel)
    (b : BranchProtectionCompliance) :
    (applyPushLevels b ls).codeOwnerApprovalRequired =
      b.codeOwnerApprovalRequired := by
  induction ls generalizing b with
  | nil => rfl
  | cons lvl rest ih =>
    rw [applyPushLevels, ih, pushLevelStep_codeOwner]

theorem applyMergeLevels_branchName (ls : List BranchProtectionAccessLevel)
    (b : BranchProtectionCompliance) :
    (applyMergeLevels b ls).branchName = b.branchName := by
  induction ls generalizing b with
  | nil => rfl
  | cons lvl rest ih =>
    rw [applyMergeLevels, ih, mergeLevelStep_branchName]

theorem applyPushLevels_branchName (ls : List BranchProtectionAccessLevel)
    (b : BranchProtectionCompliance) :
    (applyPushLevels b ls).branchName = b.branchName := by
  induction ls generalizing b with
  | nil => rfl
  | cons lvl rest ih =>
    rw [applyPushLevels, ih, pushLevelStep_branchName]

theorem applyProtectionRule_allowForcePush (b : BranchProtectionCompliance)
    (rule : BranchProtection) :
    (applyProtectionRule b rule).allowForcePush =
      (b.allowForcePush ||
        (wildcardMatch rule.protectionPattern b.branchName &&
          rule.allowForcePush)) := by
  unfold applyProtectionRule
  by_cases h : wildcardMatch rule.protectionPattern b.branchName = true
  · rw [if_neg (not_not_intro h)]
    simp only [applyPushLevels_allowForcePush, applyMergeLevels_allowForcePush,
      h, Bool.true_and]
    cases hb : b.allowForcePush <;>
      cases hc : b.codeOwnerApprovalRequired <;> simp [hb, hc]
  · rw [if_pos (by simpa using h)]
    simp only [Bool.not_eq_true] at h
    simp [h]

theorem applyProtectionRule_codeOwner (b : BranchProtectionCompliance)
    (rule : BranchProtection) :
    (applyProtectionRule b rule).codeOwnerApprovalRequired =
      (b.codeOwnerApprovalRequired &&
        (!(wildcardMatch rule.protectionPattern b.branchName) ||
          rule.codeOwnerApprovalRequired)) := by
  unfold applyProtectionRule
  by_cases h : wildcardMatch rule.protectionPattern b.branchName = true
  · rw [if_neg (not_not_intro h)]
    simp only [applyPushLevels_codeOwner, applyMergeLevels_codeOwner, h,
      Bool.not_true, Bool.false_or]
    cases hb : b.allowForcePush <;>
      cases hc : b.codeOwnerApprovalRequired <;> simp [hb, hc]
  · rw [if_pos (by simpa using h)]
    simp only [Bool.not_eq_true] at h
    simp [h]

theorem applyProtectionRule_branchName (b : BranchProtectionCompliance)
    (rule : BranchProtection) :
    (applyProtectionRule b rule).branchName = b.branchName := by
  unfold applyProtectionRule
  by_cases h : wildcardMatch rule.protectionPattern b.branchName = true
  · rw [if_neg (not_not_intro h)]
    simp only [applyPushLevels_branchName, applyMergeLevels_branchName]
    cases hb : b.allowForcePush <;>
      cases hc : b.codeOwnerApprovalRequired <;> simp [hb, hc]
  · rw [if_pos (by simpa using h)]

theorem checkBranchProtections_allowForcePush
    (rules : List BranchProtection) (b : BranchProtectionCompliance) :
    (checkBranchProtections b rules).allowForcePush =
      (b.allowForcePush ||
        rules.any (fun r =>
          wildcardMatch r.protectionPattern b.branchName &&
            r.allowForcePush)) := by
  induction rules generalizing b with
  | nil => simp [checkBranchProtections]
  | cons r rest ih =>
    simp only [checkBranchProtections, List.foldl_cons, List.any_cons]
    rw [show List.foldl applyProtectionRule (applyProtectionRule b r) rest =
          checkBranchProtections (applyProtectionRule b r) rest from rfl, ih]
    simp only [applyProtectionRule_allowForcePush,
      applyProtectionRule_branchName]
    cases hb : b.allowForcePush <;>
      cases hr : wildcardMatch r.protectionPattern b.branchName <;>
        cases ha : r.allowForcePush <;> simp [hb, hr, ha]

theorem checkBranchProtections_codeOwner
    (rules : List BranchProtection) (b : BranchProtectionCompliance) :
    (checkBranchProtections b rules).codeOwnerApprovalRequired =
      (b.codeOwnerApprovalRequired &&
        rules.all (fun r =>
          !(wildcardMatch r.protectionPattern b.branchName) ||
            r.codeOwnerApprovalRequired)) := by
  induction rules generalizing b with
  | nil => simp [checkBranchProtections]
  | cons r rest ih =>
    simp only [checkBranchProtections, List.foldl_cons, List.all_cons]
    rw [show List.foldl applyProtectionRule (applyProtectionRule b r) rest =
          checkBranchProtections (applyProtectionRule b r) rest from rfl, ih]
    simp only [applyProtectionRule_codeOwner, applyProtectionRule_branchName]
    cases hb : b.codeOwnerApprovalRequired <;>
      cases hr : wildcardMatch r.protectionPattern b.branchName <;>
        cases hc : r.codeOwnerApprovalRequired <;> simp [hb, hr, hc]

/-- The claimed effective minimum (C1's specification side): the lowest
non-zero access level among a list of entries, starting from the `0` ("no
one") baseline; a zero entry never displaces a recorded non-zero minimum.
This definition follows the spec's words and is compared against the
source-derived `checkBranchProtections`. -/
def specLowestNonZero (levels : List Int) : Int :=
  levels.foldl (fun m a => if a ≠ 0 ∧ (m = 0 ∨ a < m) then a else m) 0

/-- Concrete protection rule exhibiting the push-minimum slip: merge entries
`[20]`, push entries `[40, 30]`, pattern matching branch `main` exactly. -/
def c1Rule : BranchProtection where
  protectionPattern := "main"
  allowForcePush := false
  codeOwnerApprovalRequired := true
  minPushAccessLevel := 0
  minMergeAccessLevel := 0
  pushAccessLevels := [⟨40, ""⟩, ⟨30, ""⟩]
  mergeAccessLevels := [⟨20, ""⟩]

/-- C1.  The claim states that after the merge the effective minimum push
access level equals the lowest non-zero level among the matching rules' push
entries.  The code fails this: the push loop compares each candidate against
`branch.MinMergeAccessLevel` instead of `branch.MinPushAccessLevel`
(`part_001` line 623), contradicting its own adjacent comment ("smaller than
the minimum currently set in branch").  With one matching rule whose merge
entries give minimum 20 and whose push entries are `[40, 30]`, the code keeps
`MinPushAccessLevel = 40` because `30 < 20` is false, while the lowest
non-zero push entry is 30.  The merge minimum itself is computed correctly. -/
theorem checkBranches_push_min_compares_against_merge_min :
    (checkBranchProtections (initBranchProtection "main" true)
        [c1Rule]).minPushAccessLevel = 40 ∧
    (checkBranchProtections (initBranchProtection "main" true)
        [c1Rule]).minMergeAccessLevel = 20 ∧
    specLowestNonZero
        (c1Rule.pushAccessLevels.map (fun a => a.accessLevel)) = 30 ∧
    wildcardMatch c1Rule.protectionPattern "main" = true := by
  refine ⟨by decide, by decide, by decide, by decide⟩

/-- C3.  For every branch name and list of protection rules, starting from the
least-permissive baseline: the merged allow-force-push flag is true iff at
least one rule whose pattern matches the branch name allows force push, and
the merged code-owner-approval-required flag is true iff every rule whose
pattern matches the branch name requires code-owner approval. -/
theorem checkBranches_force_push_any_code_owner_all
    (name : String) (isDefault : Bool) (rules : List BranchProtection) :
    ((checkBranchProtections (initBranchProtection name isDefault)
        rules).allowForcePush = true ↔
      ∃ r ∈ rules, wildcardMatch r.protectionPattern name = true ∧
        r.allowForcePush = true) ∧
    ((checkBranchProtections (initBranchProtection name isDefault)
        rules).codeOwnerApprovalRequired = true ↔
      ∀ r ∈ rules, wildcardMatch r.protectionPattern name = true →
        r.codeOwnerApprovalRequired = true) := by
  constructor
  · rw [checkBranchProtections_allowForcePush]
    simp [initBranchProtection, List.any_eq_true]
  · rw [checkBranchProtections_codeOwner]
    simp only [initBranchProtection, Bool.true_and, List.all_eq_true]
    constructor
    · intro h r hr hm
      have := h r hr
      simpa [hm] using this
    · intro h r hr
      by_cases hm : wildcardMatch r.protectionPattern name = true
      · simp [hm, h r hr hm]
      · simp only [Bool.not_eq_true] at hm
        simp [hm]

/-! ## Variable Resolution

Embedding of `ReplaceVariable` (source `part_009`, lines 481–524).  The Go
function scans the input with the regular expression
`(\$[a-zA-Z_][a-zA-Z0-9_]*|\${[a-zA-Z_][a-zA-Z0-9_]*}|%[a-zA-Z_][a-zA-Z0-9_]*%)`,
replaces every match by the looked-up value — six scope maps consulted in the
order project, group, instance, job, defaultJob, predefined, the match kept
verbatim when no scope has it — and repeats the pass until it changes nothing
or five passes have run.  The scanner below reproduces the regex's
leftmost-match, non-overlapping semantics by hand; the variable name is the
match stripped of the `$`/`\x7b`/`\x7d`/`%` delimiter characters, which for
these three rigid token shapes is exactly the identifier. -/

/-- First character class of a token name: `[a-zA-Z_]`. -/
def isAlphaUnd (c : Char) : Bool :=
  ('a' ≤ c && c ≤ 'z') || ('A' ≤ c && c ≤ 'Z') || c == '_'

/-- Later character class of a token name: `[a-zA-Z0-9_]`. -/
def isIdentChar (c : Char) : Bool := isAlphaUnd c || ('0' ≤ c && c ≤ '9')

/-- Try to match one variable token at the head of the list.  Returns the full
matched text, the variable name, and the remainder after the match; `none`
when no alternative of the regex matches at this position.  The second regex
alternative (`\${NAME}`) can only apply when the first (`\$NAME`) does not,
because `\x7b` is not a name character, so the alternation order of the regex
is preserved by this if-chain. -/
def matchVarToken : List Char → Option (List Char × String × List Char)
  | [] => none
  | a :: rest =>
    if a = '$' then
      match rest with
      | [] => none
      | b :: bs =>
        if isAlphaUnd b then
          some ('$' :: b :: bs.takeWhile isIdentChar,
                String.mk (b :: bs.takeWhile isIdentChar),
                bs.dropWhile isIdentChar)
        else if b = '{' then
          match bs with
          | [] => none
          | c :: cs =>
            if isAlphaUnd c then
              if (cs.dropWhile isIdentChar).head? = some '}' then
                some ('$' :: '{' :: ((c :: cs.takeWhile isIdentChar) ++ ['}']),
                      String.mk (c :: cs.takeWhile isIdentChar),
                      (cs.dropWhile isIdentChar).tail)
              else none
            else none
        else none
    else if a = '%' then
      match rest with
      | [] => none
      | c :: cs =>
        if isAlphaUnd c then
          if (cs.dropWhile isIdentChar).head? = some '%' then
            some ('%' :: ((c :: cs.takeWhile isIdentChar) ++ ['%']),
                  String.mk (c :: cs.takeWhile isIdentChar),
                  (cs.dropWhile isIdentChar).tail)
          else none
        else none
    else none

/-- The six scope maps of `ReplaceVariable`, in precedence order. -/
structure VarScopes where
  project : List (String × String)
  group : List (String × String)
  instanceScope : List (String × String)
  job : List (String × String)
  defaultJob : List (String × String)
  predefined : List (String × String)

/-- The lookup chain of the replacement callback (`part_009` lines 489–509):
project, then group, instance, job, defaultJob, predefined. -/
def lookupScopes (m : VarScopes) (name : String) : Option String :=
  match assocFind m.project name with
  | some v => some v
  | none =>
    match assocFind m.group name with
    | some v => some v
    | none =>
      match assocFind m.instanceScope name with
      | some v => some v
      | none =>
        match assocFind m.job name with
        | some v => some v
        | none =>
          match assocFind m.defaultJob name with
          | some v => some v
          | none => assocFind m.predefined name

/-- One substitution pass (`r.ReplaceAllStringFunc`), with fuel: each step
consumes at least one character, so fuel `length` completes the scan. -/
def substTokensF (m : VarScopes) : Nat → List Char → List Char
  | 0, l => l
  | _ + 1, [] => []
  | fuel + 1, c :: cs =>
    match matchVarToken (c :: cs) with
    | some (tok, nm, rest) =>
      (match lookupScopes m nm with
       | some v => v.data
       | none => tok) ++ substTokensF m fuel rest
    | none => c :: substTokensF m fuel cs

/-- The `resolveVariables` closure of `ReplaceVariable`: one full substitution pass. -/
def resolveVariables (m : VarScopes) (s : String) : String :=
  String.mk (substTokensF m s.data.length s.data)

/-- The bounded fixpoint loop of `ReplaceVariable` (`part_009` lines 512–521):
`previous`/`current` iteration, at most five passes, stopping early when a
pass changes nothing. -/
def rvLoop (m : VarScopes) : Nat → String → String → String
  | 0, _, current => current
  | fuel + 1, previous, current =>
    if current = previous then current
    else rvLoop m fuel current (resolveVariables m current)

/-- Embeds `gitlab.ReplaceVariable` (`part_009` lines 481–524). -/
def ReplaceVariable (input : String)
    (project group instanceScope job defaultJob predefined :
      List (String × String)) : String :=
  rvLoop ⟨project, group, instanceScope, job, defaultJob, predefined⟩ 5 "" input

/-- Does a string contain a variable token anywhere (in the sense of the
`ReplaceVariable` regex)?  Used to state the no-nested-token hypotheses. -/
def hasVarToken : List Char → Bool
  | [] => false
  | c :: cs =>
    match matchVarToken (c :: cs) with
    | some _ => true
    | none => hasVarToken cs

/-- A value with none of the delimiter characters `$`/`%` contains no token
and is left unchanged by a substitution pass. -/
def noVarChars (s : String) : Bool := s.data.all (fun c => c ≠ '$' && c ≠ '%')

/-! Helper lemmas for the variable-resolution theorems. -/

theorem matchVarToken_none_of_head {c : Char} {cs : List Char}
    (h1 : c ≠ '$') (h2 : c ≠ '%') : matchVarToken (c :: cs) = none := by
  simp [matchVarToken, h1, h2]

theorem substTokensF_of_noVarChars (m : VarScopes) (fuel : Nat)
    (l : List Char) (h : l.all (fun c => c ≠ '$' && c ≠ '%') = true) :
    substTokensF m fuel l = l := by
  induction fuel generalizing l with
  | zero => rfl
  | succ fuel ih =>
    cases l with
    | nil => rfl
    | cons c cs =>
      simp only [List.all_cons, Bool.and_eq_true, decide_eq_true_eq] at h
      rw [substTokensF, matchVarToken_none_of_head h.1.1 h.1.2,
        ih cs (by simpa using h.2)]

theorem resolveVariables_of_noVarChars (m : VarScopes) (s : String)
    (h : noVarChars s = true) : resolveVariables m s = s := by
  unfold resolveVariables
  rw [substTokensF_of_noVarChars m _ _ (by simpa [noVarChars] using h)]

theorem rvLoop_succ (m : VarScopes) (fuel : Nat) (previous current : String) :
    rvLoop m (fuel + 1) previous current =
      if current = previous then current
      else rvLoop m fuel current (resolveVariables m current) := rfl

/-- If one substitution pass leaves `y` unchanged then the whole bounded loop
returns `y`. -/
theorem rvLoop_of_fixpoint (m : VarScopes) (y previous : String)
    (h : resolveVariables m y = y) (hne : y ≠ previous) :
    rvLoop m 5 previous y = y := by
  show rvLoop m (4 + 1) previous y = y
  rw [rvLoop_succ, if_neg hne, h]
  show rvLoop m (3 + 1) y y = y
  rw [rvLoop_succ, if_pos rfl]

theorem takeWhile_of_all {p : Char → Bool} {l : List Char}
    (h : l.all p = true) : l.takeWhile p = l := by
  induction l with
  | nil => rfl
  | cons c cs ih =>
    simp only [List.all_cons, Bool.and_eq_true] at h
    rw [List.takeWhile_cons, if_pos h.1, ih h.2]

theorem dropWhile_of_all {p : Char → Bool} {l : List Char}
    (h : l.all p = true) : l.dropWhile p = [] := by
  induction l with
  | nil => rfl
  | cons c cs ih =>
    simp only [List.all_cons, Bool.and_eq_true] at h
    rw [List.dropWhile_cons, if_pos h.1, ih h.2]

/-- A string of the shape `$NAME` with `NAME` a valid identifier, non-empty
with a leading `[a-zA-Z_]` character and `[a-zA-Z0-9_]` afterwards. -/
def isValidIdentStr (s : String) : Bool :=
  match s.data with
  | [] => false
  | c :: cs => isAlphaUnd c && cs.all isIdentChar

/-- One substitution pass on the single token `$NAME` yields the value of the
lookup chain, or leaves the token untouched when no scope has the name. -/
theorem resolveVariables_single_token (m : VarScopes) (name : String)
    (h : isValidIdentStr name = true) :
    resolveVariables m ("$" ++ name) =
      (match lookupScopes m name with
       | some v => v
       | none => "$" ++ name) := by
  obtain ⟨l⟩ := name
  cases l with
  | nil => simp [isValidIdentStr] at h
  | cons c cs =>
    simp only [isValidIdentStr, Bool.and_eq_true] at h
    have hdata : ("$" ++ String.mk (c :: cs)).data = '$' :: c :: cs := by
      rw [String.data_append]
      rfl
    have hident : isAlphaUnd c → isIdentChar c = true := by
      intro hc
      simp [isIdentChar, hc]
    unfold resolveVariables
    rw [hdata]
    show String.mk (substTokensF m (cs.length + 1 + 1) ('$' :: c :: cs)) = _
    rw [substTokensF]
    have hmatch : matchVarToken ('$' :: c :: cs) =
        some ('$' :: c :: cs, String.mk (c :: cs), []) := by
      simp [matchVarToken, h.1, takeWhile_of_all h.2, dropWhile_of_all h.2]
    rw [hmatch]
    show String.mk ((match lookupScopes m (String.mk (c :: cs)) with
      | some v => v.data
      | none => '$' :: c :: cs) ++ substTokensF m (cs.length + 1) []) = _
    rw [show substTokensF m (cs.length + 1) [] = [] from rfl, List.append_nil]
    cases hl : lookupScopes m (String.mk (c :: cs)) with
    | some v =>
      show String.mk v.data = v
      rfl
    | none =>
      show String.mk ('$' :: c :: cs) = "$" ++ String.mk (c :: cs)
      rw [← hdata]

theorem token_ne_empty (name : String) : "$" ++ name ≠ "" := by
  intro hcontra
  have : ("$" ++ name).data = ("" : String).data := by rw [hcontra]
  rw [String.data_append] at this
  simp at this

/-- The full `ReplaceVariable` loop on a single token whose lookup succeeds
with a value free of token-delimiter characters returns that value. -/
theorem replaceVariable_token_found (m : VarScopes) (name v : String)
    (hname : isValidIdentStr name = true) (hv : noVarChars v = true)
    (hl : lookupScopes m name = some v) :
    rvLoop m 5 "" ("$" ++ name) = v := by
  have h1 : resolveVariables m ("$" ++ name) = v := by
    rw [resolveVariables_single_token m name hname, hl]
  show rvLoop m (4 + 1) "" ("$" ++ name) = v
  rw [rvLoop_succ, if_neg (token_ne_empty name), h1]
  by_cases hveq : v = "$" ++ name
  · show rvLoop m (3 + 1) ("$" ++ name) v = v
    rw [rvLoop_succ, if_pos hveq]
  · show rvLoop m (3 + 1) ("$" ++ name) v = v
    rw [rvLoop_succ, if_neg hveq, resolveVariables_of_noVarChars m v hv]
    show rvLoop m (2 + 1) v v = v
    rw [rvLoop_succ, if_pos rfl]

/-- The full `ReplaceVariable` loop on a single token that no scope resolves
returns the token verbatim. -/
theorem replaceVariable_token_unresolved (m : VarScopes) (name : String)
    (hname : isValidIdentStr name = true)
    (hl : lookupScopes m name = none) :
    rvLoop m 5 "" ("$" ++ name) = "$" ++ name := by
  have h1 : resolveVariables m ("$" ++ name) = "$" ++ name := by
    rw [resolveVariables_single_token m name hname, hl]
  show rvLoop m (4 + 1) "" ("$" ++ name) = "$" ++ name
  rw [rvLoop_succ, if_neg (token_ne_empty name), h1]
  show rvLoop m (3 + 1) ("$" ++ name) ("$" ++ name) = "$" ++ name
  rw [rvLoop_succ, if_pos rfl]

/-- C8.  For every variable name that is a valid identifier and every set of
six scope maps, `ReplaceVariable` substitutes the token `$NAME` with the value
from the highest-precedence scope that defines it, in the order
project > group > instance > job > pipeline-global (`defaultJob`) >
predefined; in particular a project-scope value always wins over any other
scope's value for the same name.  Each conjunct assumes the substituted value
itself carries no further token-delimiter characters, so that the remaining
resolution passes leave it unchanged; the final conjunct records that a name
found in no scope is kept verbatim. -/
theorem replaceVariable_scope_precedence
    (name v : String)
    (project group instanceScope job defaultJob predefined :
      List (String × String))
    (hname : isValidIdentStr name = true) (hv : noVarChars v = true) :
    (assocFind project name = some v →
      ReplaceVariable ("$" ++ name) project group instanceScope job defaultJob
        predefined = v) ∧
    (assocFind project name = none → assocFind group name = some v →
      ReplaceVariable ("$" ++ name) project group instanceScope job defaultJob
        predefined = v) ∧
    (assocFind project name = none → assocFind group name = none →
      assocFind instanceScope name = some v →
      ReplaceVariable ("$" ++ name) project group instanceScope job defaultJob
        predefined = v) ∧
    (assocFind project name = none → assocFind group name = none →
      assocFind instanceScope name = none → assocFind job name = some v →
      ReplaceVariable ("$" ++ name) project group instanceScope job defaultJob
        predefined = v) ∧
    (assocFind project name = none → assocFind group name = none →
      assocFind instanceScope name = none → assocFind job name = none →
      assocFind defaultJob name = some v →
      ReplaceVariable ("$" ++ name) project group instanceScope job defaultJob
        predefined = v) ∧
    (assocFind project name = none → assocFind group name = none →
      assocFind instanceScope name = none → assocFind job name = none →
      assocFind defaultJob name = none → assocFind predefined name = some v →
      ReplaceVariable ("$" ++ name) project group instanceScope job defaultJob
        predefined = v) ∧
    (assocFind project name = none → assocFind group name = none →
      assocFind instanceScope name = none → assocFind job name = none →
      assocFind defaultJob name = none → assocFind predefined name = none →
      ReplaceVariable ("$" ++ name) project group instanceScope job defaultJob
        predefined = "$" ++ name) := by
  refine ⟨?_, ?_, ?_, ?_, ?_, ?_, ?_⟩
  · intro h1
    exact replaceVariable_token_found _ name v hname hv
      (by simp [lookupScopes, h1])
  · intro h1 h2
    exact replaceVariable_token_found _ name v hname hv
      (by simp [lookupScopes, h1, h2])
  · intro h1 h2 h3
    exact replaceVariable_token_found _ name v hname hv
      (by simp [lookupScopes, h1, h2, h3])
  · intro h1 h2 h3 h4
    exact replaceVariable_token_found _ name v hname hv
      (by simp [lookupScopes, h1, h2, h3, h4])
  · intro h1 h2 h3 h4 h5
    exact replaceVariable_token_found _ name v hname hv
      (by simp [lookupScopes, h1, h2, h3, h4, h5])
  · intro h1 h2 h3 h4 h5 h6
    exact replaceVariable_token_found _ name v hname hv
      (by simp [lookupScopes, h1, h2, h3, h4, h5, h6])
  · intro h1 h2 h3 h4 h5 h6
    exact replaceVariable_token_unresolved _ name hname
      (by simp [lookupScopes, h1, h2, h3, h4, h5, h6])

/-- Witness for C8: with the name `A` bound in every scope, the project-scope
value `1` is the one substituted. -/
theorem replaceVariable_scope_precedence_witness :
    ReplaceVariable ("$" ++ "A") [("A", "1")] [("A", "2")] [("A", "3")]
      [("A", "4")] [("A", "5")] [("A", "6")] = "1" :=
  (replaceVariable_scope_precedence "A" "1" [("A", "1")] [("A", "2")]
    [("A", "3")] [("A", "4")] [("A", "5")] [("A", "6")] (by decide)
    (by decide)).1 (by decide)

/-- C6 (amended).  `ReplaceVariable` applied twice equals applying it once
whenever the first application's result is a fixpoint of a single
substitution pass — i.e. whenever the first application terminated by
reaching a fixpoint rather than by exhausting the five-pass bound.  The
original claim's hypothesis (no scope value contains another token) is not
sufficient: the counterexample below exhausts the bound with token-free
values. -/
theorem replaceVariable_idempotent_of_fixpoint
    (input : String)
    (project group instanceScope job defaultJob predefined :
      List (String × String))
    (h : resolveVariables
        ⟨project, group, instanceScope, job, defaultJob, predefined⟩
        (ReplaceVariable input project group instanceScope job defaultJob
          predefined) =
      ReplaceVariable input project group instanceScope job defaultJob
        predefined) :
    ReplaceVariable
        (ReplaceVariable input project group instanceScope job defaultJob
          predefined)
        project group instanceScope job defaultJob predefined =
      ReplaceVariable input project group instanceScope job defaultJob
        predefined := by
  by_cases hy : ReplaceVariable input project group instanceScope job
      defaultJob predefined = ""
  · rw [hy]
    show rvLoop _ (4 + 1) "" "" = ""
    rw [rvLoop_succ, if_pos rfl]
  · exact rvLoop_of_fixpoint _ _ "" h hy

/-- Witness for the amended C6: `$A` with `A → x` resolves to `x`, a fixpoint
of the substitution pass, so the second application changes nothing. -/
theorem replaceVariable_idempotent_witness :
    ReplaceVariable (ReplaceVariable "$A" [("A", "x")] [] [] [] [] [])
        [("A", "x")] [] [] [] [] [] =
      ReplaceVariable "$A" [("A", "x")] [] [] [] [] [] :=
  replaceVariable_idempotent_of_fixpoint "$A" [("A", "x")] [] [] [] [] []
    (by decide)

/-- C6 counterexample.  The claim asserts idempotence whenever no scope value
contains another variable token.  Input of ten `$` characters followed by
`A`, with the single binding `A → "A"` (a value with no token and no
delimiter character): every pass strips exactly one `$` — the scanner finds a
match only at the final `$A` — so the first application exhausts the five-pass
bound and returns `$$$$$A`, while a second application continues to `A`.
Hence `ReplaceVariable` applied twice differs from applying it once even
though no value contains a token. -/
theorem replaceVariable_not_idempotent_at_bound :
    hasVarToken ("A" : String).data = false ∧
    noVarChars "A" = true ∧
    ReplaceVariable "$$$$$$$$$$A" [("A", "A")] [] [] [] [] [] = "$$$$$A" ∧
    ReplaceVariable (ReplaceVariable "$$$$$$$$$$A" [("A", "A")] [] [] [] [] [])
        [("A", "A")] [] [] [] [] [] = "A" ∧
    ("A" : String) ≠ "$$$$$A" := by
  refine ⟨by decide, by decide, by decide, by decide, by decide⟩

/-! ## Version currency

Embedding of `gitlab.IsUpToDate` (source `part_009`, lines 106–160).  The
function delegates semantic-version parsing and comparison to the third-party
`hashicorp/go-version` library (`gover.NewVersion`,
`Version.GreaterThanOrEqual`); the embedding abstracts those two operations as
parameters `parseV` (parse failure is `none`) and `verGE`, keeping the
decision structure of the source exact: empty-string guard first, then exact
match, then the latest-reference aliases, then the semantic comparison, then
`false`. -/

/-- Embeds `gitlab.IsUpToDate`, parameterised by the go-version operations. -/
def IsUpToDate {V : Type} (parseV : String → Option V) (verGE : V → V → Bool)
    (version latestVersion : String) (latestRefs : List String) : Bool :=
  if latestVersion = "" ∨ version = "" then false
  else if version = latestVersion then true
  else if latestRefs.contains version then true
  else
    match parseV version, parseV latestVersion with
    | some v1, some v2 => if verGE v1 v2 then true else false
    | _, _ => false

/-- The latest-reference aliases built at the call site
(`dataCollectionGitlabPipelineOrigin.go` line 552): `HEAD`, the project's
default branch, `latest`, `~latest`, `main`, `master`. -/
def latestRefsFor (defaultBranch : String) : List String :=
  ["HEAD", defaultBranch, "latest", "~latest", "main", "master"]

/-- C10.  `IsUpToDate` returns false whenever the requested version or the
newest version is the empty string — including when both are empty, so the
exact-string-match rule never applies to empty strings. -/
theorem isUpToDate_false_on_empty {V : Type} (parseV : String → Option V)
    (verGE : V → V → Bool) (version latestVersion : String)
    (latestRefs : List String)
    (h : version = "" ∨ latestVersion = "") :
    IsUpToDate parseV verGE version latestVersion latestRefs = false := by
  unfold IsUpToDate
  rcases h with h | h <;> rw [if_pos (by tauto)]

/-- Witness for C10 at all three empty configurations, applying the theorem
at concrete inputs. -/
theorem isUpToDate_false_on_empty_witness :
    IsUpToDate (fun s => s.toNat?) (fun a b => b ≤ a) "" "1.0"
        (latestRefsFor "main") = false ∧
    IsUpToDate (fun s => s.toNat?) (fun a b => b ≤ a) "latest" ""
        (latestRefsFor "main") = false ∧
    IsUpToDate (fun s => s.toNat?) (fun a b => b ≤ a) "" ""
        (latestRefsFor "main") = false :=
  ⟨isUpToDate_false_on_empty _ _ _ _ _ (Or.inl rfl),
   isUpToDate_false_on_empty _ _ _ _ _ (Or.inr rfl),
   isUpToDate_false_on_empty _ _ _ _ _ (Or.inl rfl)⟩

/-- C7 counterexample.  The claim states `IsUpToDate` is true exactly when the
version matches the newest version, matches a floating alias, or compares
greater-or-equal as a semantic version.  With `version = "latest"` (a
floating alias) and `latestVersion = ""` the claimed condition holds, but the
code returns false: the empty-string guard at the top of the function fires
before the alias check, whatever the semantic-version backend does. -/
theorem isUpToDate_claim_fails_on_empty_latest :
    IsUpToDate (fun s => s.toNat?) (fun a b => b ≤ a) "latest" ""
        (latestRefsFor "main") = false ∧
    (latestRefsFor "main").contains "latest" = true := by
  refine ⟨by decide, by decide⟩

/-- C7 (amended).  `IsUpToDate` returns true exactly when both the requested
and newest versions are non-empty and the requested version equals the newest
version, or equals one of the floating/latest aliases (HEAD, the default
branch, `latest`, `~latest`, `main`, `master`), or both versions parse as
semantic versions with the requested one greater than or equal to the newest.
Stated for every semantic-version backend `parseV`/`verGE`. -/
theorem isUpToDate_characterisation {V : Type} (parseV : String → Option V)
    (verGE : V → V → Bool) (defaultBranch version latestVersion : String) :
    IsUpToDate parseV verGE version latestVersion
        (latestRefsFor defaultBranch) = true ↔
      (version ≠ "" ∧ latestVersion ≠ "" ∧
        (version = latestVersion ∨
          (latestRefsFor defaultBranch).contains version = true ∨
          ∃ v1 v2, parseV version = some v1 ∧ parseV latestVersion = some v2 ∧
            verGE v1 v2 = true)) := by
  unfold IsUpToDate
  by_cases hl : latestVersion = ""
  · simp [hl]
  · by_cases hv : version = ""
    · simp [hv]
    · rw [if_neg (by tauto)]
      by_cases heq : version = latestVersion
      · simp [heq, hl]
      · rw [if_neg heq]
        by_cases href : (latestRefsFor defaultBranch).contains version = true
        · rw [if_pos href]
          simp only [hv, hl, true_iff, ne_eq, not_false_iff, true_and]
          exact Or.inr (Or.inl (by simpa using href))
        · rw [if_neg href]
          simp only [hv, hl, heq, href, ne_eq, not_false_iff, true_and,
            false_or]
          cases h1 : parseV version with
          | none => simp [h1]
          | some v1 =>
            cases h2 : parseV latestVersion with
            | none => simp [h1, h2]
            | some v2 =>
              cases hge : verGE v1 v2 with
              | true => simp [h1, h2, hge]
              | false => simp [h1, h2, hge]

/-! ## Origin data collection: configuration-fetch classification

Embedding of the error-dispatch block at the top of
`GitlabPipelineOriginDataCollection.Run`
(`dataCollectionGitlabPipelineOrigin.go`, lines 309–378): the flags `CiValid`,
`CiMissing` and `LimitedAnalysis` are initialised to `true`/`false`/`false`,
reassigned by the if/else-if chain following the `GetFullGitlabCI` call, and
when `LimitedAnalysis` ends up set, `Run` returns the dataset together with a
nil error. -/

/-- The `CiConfig` part of `gitlab.MergedCIConfResponse` that the dispatch
reads: the error list and the validity status string. -/
structure CiConfigStatus where
  errors : List String
  status : String
deriving DecidableEq, Repr

/-- The outcome of the `gitlab.GetFullGitlabCI` call as `Run` observes it:
the error (its message when non-nil), the raw configuration string, the
merged response when non-nil, and whether the merged configuration unmarshalled
to a non-nil value. -/
structure FetchOutcome where
  err : Option String
  confString : String
  mergedResponse : Option CiConfigStatus
  mergedConfPresent : Bool
deriving DecidableEq, Repr

/-- The three status flags every consumer receives. -/
structure OriginStatusFlags where
  ciValid : Bool
  ciMissing : Bool
  limitedAnalysis : Bool
deriving DecidableEq, Repr

/-- The if/else-if chain of `Run` lines 336–372.  On a fetch error: limited
analysis, and a `404` error for a project that is not itself missing is
reclassified from CI-invalid to CI-missing.  Without a fetch error: a merged
response carrying errors or an `INVALID` status is CI-missing when the raw
configuration is empty and CI-invalid otherwise; a nil merged response or nil
merged configuration is CI-missing; otherwise the initial flags stand. -/
def classifyFetch (notFound : Bool) (f : FetchOutcome) : OriginStatusFlags :=
  match f.err with
  | some e =>
    if goContains e "404" && !notFound then
      { ciValid := true, ciMissing := true, limitedAnalysis := true }
    else
      { ciValid := false, ciMissing := false, limitedAnalysis := true }
  | none =>
    match f.mergedResponse with
    | some mr =>
      if mr.errors.length > 0 ∨ mr.status = "INVALID" then
        if f.confString = "" then
          { ciValid := true, ciMissing := true, limitedAnalysis := true }
        else
          { ciValid := false, ciMissing := false, limitedAnalysis := true }
      else if !f.mergedConfPresent then
        { ciValid := true, ciMissing := true, limitedAnalysis := true }
      else
        { ciValid := true, ciMissing := false, limitedAnalysis := false }
    | none =>
      { ciValid := true, ciMissing := true, limitedAnalysis := true }

/-- The early return at `Run` lines 374–378: when `LimitedAnalysis` is set the
function returns the (empty) dataset and a nil error; otherwise it continues.
`some (flags, none)` models "returns now, flags as shown, error nil". -/
def runEarlyReturn (notFound : Bool) (f : FetchOutcome) :
    Option (OriginStatusFlags × Option String) :=
  let flags := classifyFetch notFound f
  if flags.limitedAnalysis then some (flags, none) else none

/-- C4.  When the top-level CI configuration fetch fails with an error whose
message contains `404` and the project is known to exist
(`project.NotFound = false`), `Run` sets `CiMissing = true`, keeps
`CiValid = true` (CI-missing, not CI-invalid), sets `LimitedAnalysis = true`,
and returns early with a nil error. -/
theorem origin_run_404_is_ci_missing (e : String) (f : FetchOutcome)
    (herr : f.err = some e) (h404 : goContains e "404" = true) :
    runEarlyReturn false f =
      some ({ ciValid := true, ciMissing := true, limitedAnalysis := true },
        none) := by
  unfold runEarlyReturn classifyFetch
  rw [herr]
  simp [h404]

/-- Witness for C4 at the concrete error message `"HTTP 404 Not Found"`. -/
theorem origin_run_404_is_ci_missing_witness :
    runEarlyReturn false
        { err := some "HTTP 404 Not Found", confString := "",
          mergedResponse := none, mergedConfPresent := false } =
      some ({ ciValid := true, ciMissing := true, limitedAnalysis := true },
        none) :=
  origin_run_404_is_ci_missing "HTTP 404 Not Found" _ rfl (by decide)

/-! ## Image Reference Parser

Embedding of `parseImageLink` and `handlePresenceOfVariables`
(`dataCollectionGitlabPipelineImage.go`).  Go's early `return` statements are
rendered as an option-valued fall-through chain: each edge-case block returns
`some` result exactly when the corresponding Go block returns, and `none` when
Go falls through to the next block.  Two-index slices `s[i:j]` are modelled by
`goSlice`; parse results are the `(registry, name, tag)` triple. -/

/-- Go slice `s[i:j]`. -/
def goSlice (s : String) (i j : Int) : String :=
  String.mk ((s.data.take j.toNat).drop i.toNat)

def dockerHubDomain : String := "docker.io"

def unknownRegistry : String := "unknown"

/-- Embeds `isAlphaNumericUnderscore` (`dataCollectionGitlabPipelineImage.go`
line 64). -/
def isAlphaNumericUnderscore (c : Char) : Bool :=
  ('a' ≤ c && c ≤ 'z') || ('A' ≤ c && c ≤ 'Z') || ('0' ≤ c && c ≤ '9') ||
    c == '_'

/-- The variable-extraction scan of `handlePresenceOfVariables` (lines
181–197): at each `$` read the maximal run of alphanumeric/underscore
characters, record `$`-prefixed token, resume after it.  Fuel equals the list
length; each step consumes at least one character. -/
def extractVarsF : Nat → List Char → List String
  | 0, _ => []
  | _ + 1, [] => []
  | fuel + 1, c :: cs =>
    if c = '$' then
      String.mk ('$' :: cs.takeWhile isAlphaNumericUnderscore) ::
        extractVarsF fuel (cs.dropWhile isAlphaNumericUnderscore)
    else extractVarsF fuel cs

/-- All `$`-variable tokens of a link, in order. -/
def extractVars (s : String) : List String := extractVarsF s.data.length s.data

/-- A `(registry, name, tag)` parse result. -/
abbrev ImageTriple := String × String × String

/-- Edge case `$IMAGE::$TAG` (lines 76–86): a `::` separator with exactly one
`$` on each side splits into name and tag; otherwise fall through. -/
def hpvDoubleColon (link : String) : Option ImageTriple :=
  if goContains link "::" then
    let parts := goSplit link "::"
    if parts.length = 2 ∧ goCountChar (parts.getD 0 "") '$' = 1 ∧
        goCountChar (parts.getD 1 "") '$' = 1 then
      some (unknownRegistry, parts.getD 0 "", parts.getD 1 "")
    else none
  else none

/-- Edge case `$REGISTRY//$IMAGE:$TAG` (lines 88–109): when the link contains
`//`, extract a trailing tag when safe (literal, or exactly one `$`), collapse
`//` to `/` in the name, and always return. -/
def hpvDoubleSlash (link : String) : Option ImageTriple :=
  if goContains link "//" then
    let lastColon := goLastIndex link ":"
    let after := goFrom link (lastColon + 1)
    let nameAndTag : String × String :=
      if goContains link ":" ∧ lastColon > 0 ∧
          ((¬ goContains after "/" = true ∧ ¬ goContains after "$" = true) ∨
            goCountChar after '$' = 1) then
        (goUpTo link lastColon, after)
      else (link, "")
    some (unknownRegistry, goReplaceAll nameAndTag.1 "//" "/", nameAndTag.2)
  else none

/-- Edge case leading slash `/$IMAGE:$TAG` (lines 112–133): strip the slash,
extract a trailing tag when safe, and always return. -/
def hpvLeadingSlash (link : String) : Option ImageTriple :=
  if goHasPre link "/" then
    let l2 := goFrom link 1
    let lastColon := goLastIndex l2 ":"
    let after := goFrom l2 (lastColon + 1)
    if goContains l2 ":" ∧ lastColon > 0 ∧
        ((¬ goContains after "/" = true ∧ ¬ goContains after "$" = true) ∨
          goCountChar after '$' = 1) then
      some (unknownRegistry, goUpTo l2 lastColon, after)
    else some (unknownRegistry, l2, "")
  else none

/-- Deep namespace paths with a literal registry domain (lines 136–177): a
first segment containing `.` or `:` and not starting with `$` is the registry;
a trailing `:tag` (or, when no colon exists, `@digest`) that is literal or a
single variable is split off; the rest is the name. -/
def hpvDeepNamespace (link : String) : Option ImageTriple :=
  let firstSlash := goIndex link "/"
  if firstSlash > 0 then
    let potentialRegistry := goUpTo link firstSlash
    if (goContains potentialRegistry "." ∨ goContains potentialRegistry ":") ∧
        ¬ goHasPre potentialRegistry "$" = true then
      let remainingPath := goFrom link (firstSlash + 1)
      let nameAndTag : String × String :=
        if goContains remainingPath ":" then
          let lastColon := goLastIndex remainingPath ":"
          let afterColon := goFrom remainingPath (lastColon + 1)
          if lastColon > 0 ∧ ¬ goContains afterColon "/" = true ∧
              (¬ goContains afterColon "$" = true ∨
                goCountChar afterColon '$' = 1) then
            (goUpTo remainingPath lastColon, afterColon)
          else (remainingPath, "")
        else if goContains remainingPath "@" then
          let lastAt := goLastIndex remainingPath "@"
          let afterAt := goFrom remainingPath (lastAt + 1)
          if lastAt > 0 ∧
              (¬ goContains afterAt "$" = true ∨
                goCountChar afterAt '$' = 1) then
            (goUpTo remainingPath lastAt, afterAt)
          else (remainingPath, "")
        else (remainingPath, "")
      some (potentialRegistry, nameAndTag.1, nameAndTag.2)
    else none
  else none

/-- The single-variable dispatch (lines 200–290).  Always returns. -/
def hpvOneVar (link v0 : String) : ImageTriple :=
  let varPos := goIndex link v0
  let beforeVar := goUpTo link varPos
  let afterVar :=
    if varPos + (v0.length : Int) < (link.length : Int) then
      goFrom link (varPos + (v0.length : Int))
    else ""
  let branchSeparator : Option ImageTriple :=
    if varPos > 0 ∧ (goHasSuf beforeVar ":" ∨ goHasSuf beforeVar "@") then
      let beforeSeparator := goUpTo beforeVar ((beforeVar.length : Int) - 1)
      if goContains beforeSeparator "/" then
        let lastSlash := goLastIndex beforeSeparator "/"
        let registryPart := goUpTo beforeSeparator lastSlash
        if goContains registryPart "." ∨ goContains registryPart ":" then
          some (registryPart, goFrom beforeSeparator (lastSlash + 1),
            v0 ++ afterVar)
        else none
      else some (dockerHubDomain, beforeSeparator, v0 ++ afterVar)
    else none
  match branchSeparator with
  | some r => r
  | none =>
    let branchSlash : Option ImageTriple :=
      if varPos > 0 ∧ goHasSuf beforeVar "/" then
        let registryPart := goUpTo beforeVar ((beforeVar.length : Int) - 1)
        if goContains registryPart "." ∨ goContains registryPart ":" then
          if goHasPre afterVar ":" then
            some (registryPart, v0, goFrom afterVar 1)
          else some (registryPart, v0 ++ afterVar, "")
        else none
      else none
    match branchSlash with
    | some r => r
    | none =>
      if varPos = 0 then
        if link.length = v0.length then (unknownRegistry, v0, "")
        else
          let lastColon := goLastIndex link ":"
          let after := goFrom link (lastColon + 1)
          if goContains link ":" ∧ lastColon > 0 ∧
              ¬ goContains after "/" = true ∧
              ¬ goContains after "$" = true then
            (unknownRegistry, goUpTo link lastColon, after)
          else (unknownRegistry, link, "")
      else (unknownRegistry, link, "")

/-- The two-variable dispatch (lines 293–414).  Always returns. -/
def hpvTwoVars (link v0 v1 : String) : ImageTriple :=
  let firstVarStart := goIndex link v0
  let afterFirst := goFrom link (firstVarStart + (v0.length : Int))
  let secondVarStart :=
    goIndex afterFirst v1 + firstVarStart + (v0.length : Int)
  let beforeFirstVar :=
    if firstVarStart > 0 then goUpTo link firstVarStart else ""
  let betweenVars :=
    if secondVarStart > firstVarStart + (v0.length : Int) then
      goSlice link (firstVarStart + (v0.length : Int)) secondVarStart
    else ""
  let afterSecondVar :=
    if secondVarStart + (v1.length : Int) < (link.length : Int) then
      goFrom link (secondVarStart + (v1.length : Int))
    else ""
  let branchRegistry : Option ImageTriple :=
    if ¬ beforeFirstVar = "" ∧ goHasSuf beforeFirstVar "/" then
      let registryPart := goUpTo beforeFirstVar ((beforeFirstVar.length : Int) - 1)
      if goContains registryPart "." ∨ goContains registryPart ":" then
        if betweenVars = ":" ∧ afterSecondVar = "" then
          some (registryPart, v0, v1)
        else if betweenVars = "/" ∧ goHasPre afterSecondVar ":" then
          some (registryPart, v0 ++ "/" ++ v1, goTrimPre afterSecondVar ":")
        else if betweenVars = "/" ∧ afterSecondVar = "" then
          some (registryPart, v0 ++ "/" ++ v1, "")
        else if goHasSuf betweenVars ":" ∧ afterSecondVar = "" then
          some (registryPart, v0 ++ goTrimSuf betweenVars ":", v1)
        else none
      else none
    else none
  match branchRegistry with
  | some r => r
  | none =>
    let branchLeading : Option ImageTriple :=
      if beforeFirstVar = "" then
        if betweenVars = ":" then
          if afterSecondVar = "" then some (unknownRegistry, v0, v1)
          else if goHasPre afterSecondVar "/" then
            let remaining := goTrimPre afterSecondVar "/"
            if goContains remaining ":" then
              let parts := goSplit remaining ":"
              some (v0 ++ ":" ++ v1, parts.getD 0 "", parts.getD 1 "")
            else some (v0 ++ ":" ++ v1, remaining, "")
          else none
        else if betweenVars = "@" then some (unknownRegistry, v0, v1)
        else if betweenVars = "" then some (unknownRegistry, v0 ++ v1, "")
        else none
      else none
    match branchLeading with
    | some r => r
    | none =>
      let lastColon := goLastIndex link ":"
      let tagPart := goFrom link (lastColon + 1)
      if goContains link ":" ∧ lastColon > 0 ∧
          ¬ goContains tagPart "/" = true ∧ goCountChar tagPart '$' ≤ 1 then
        (unknownRegistry, goUpTo link lastColon, tagPart)
      else (unknownRegistry, link, "")

/-- The three-variable dispatch (lines 417–488).  Always returns. -/
def hpvThreeVars (link : String) : ImageTriple :=
  let colonPos := goIndex link ":"
  let atPos := goIndex link "@"
  let branchColonAt : Option ImageTriple :=
    if goContains link ":" ∧ goContains link "@" ∧ colonPos < atPos then
      let beforeColon := goUpTo link colonPos
      let betweenColonAt := goSlice link (colonPos + 1) atPos
      let afterAt := goFrom link (atPos + 1)
      if goCountChar beforeColon '$' = 1 ∧ goCountChar betweenColonAt '$' = 1 ∧
          goCountChar afterAt '$' = 1 then
        some (unknownRegistry, beforeColon, betweenColonAt ++ "@" ++ afterAt)
      else none
    else none
  match branchColonAt with
  | some r => r
  | none =>
    let lastColon := goLastIndex link ":"
    let afterColon := goFrom link (lastColon + 1)
    let branchTag : Option ImageTriple :=
      if goContains link ":" ∧ lastColon > 0 ∧
          ¬ goContains afterColon "/" = true ∧ goHasPre afterColon "$" ∧
          goCountChar afterColon '$' = 1 then
        some (unknownRegistry, goUpTo link lastColon, afterColon)
      else none
    match branchTag with
    | some r => r
    | none =>
      let lastAt := goLastIndex link "@"
      let afterAt := goFrom link (lastAt + 1)
      let branchDigest : Option ImageTriple :=
        if goContains link "@" ∧ lastAt > 0 ∧ goHasPre afterAt "$" ∧
            goCountChar afterAt '$' = 1 then
          some (unknownRegistry, goUpTo link lastAt, afterAt)
        else none
      match branchDigest with
      | some r => r
      | none =>
        let slashPos := goIndex link "/"
        if goContains link ":" ∧ goContains link "/" ∧ colonPos < slashPos ∧
            goCountChar (goUpTo link slashPos) '$' = 2 ∧
            goCountChar (goFrom link (slashPos + 1)) '$' = 1 then
          (goUpTo link slashPos, goFrom link (slashPos + 1), "")
        else (unknownRegistry, link, "")

/-- The four-variable dispatch (lines 490–546).  Always returns. -/
def hpvFourVars (link : String) : ImageTriple :=
  let colonPos := goIndex link ":"
  let slashPos := goIndex link "/"
  let branchRegistryPort : Option ImageTriple :=
    if goContains link ":" ∧ goContains link "/" ∧ colonPos < slashPos then
      let registryPortPart := goUpTo link slashPos
      let remainingPart := goFrom link (slashPos + 1)
      if goCountChar registryPortPart '$' = 2 then
        if goContains remainingPart ":" then
          let lastColon := goLastIndex remainingPart ":"
          let tagPart := goFrom remainingPart (lastColon + 1)
          let imagePart := goUpTo remainingPart lastColon
          if lastColon > 0 ∧ ¬ goContains tagPart "/" = true ∧
              goCountChar imagePart '$' = 1 ∧ goCountChar tagPart '$' = 1 then
            some (registryPortPart, imagePart, tagPart)
          else none
        else if goCountChar remainingPart '$' = 2 then
          some (registryPortPart, remainingPart, "")
        else none
      else none
    else none
  match branchRegistryPort with
  | some r => r
  | none =>
    let lastColon := goLastIndex link ":"
    let afterColon := goFrom link (lastColon + 1)
    if goContains link ":" ∧ lastColon > 0 ∧
        ¬ goContains afterColon "/" = true ∧ goHasPre afterColon "$" ∧
        goCountChar afterColon '$' = 1 then
      (unknownRegistry, goUpTo link lastColon, afterColon)
    else (unknownRegistry, link, "")

/-- Embeds `handlePresenceOfVariables` (lines 68–560): the `(registry, name, tag)`
triple produced for a link containing `$`.  Initial defaults are
`(unknown, link, "")`; the structural edge cases run first, then the
variable-count dispatch; zero and five-or-more variables fall to the
defaults. -/
def handlePresenceOfVariables (link : String) : ImageTriple :=
  match hpvDoubleColon link with
  | some r => r
  | none =>
    match hpvDoubleSlash link with
    | some r => r
    | none =>
      match hpvLeadingSlash link with
      | some r => r
      | none =>
        match hpvDeepNamespace link with
        | some r => r
        | none =>
          let vars := extractVars link
          if vars.length = 1 then hpvOneVar link (vars.getD 0 "")
          else if vars.length = 2 then
            hpvTwoVars link (vars.getD 0 "") (vars.getD 1 "")
          else if vars.length = 3 then hpvThreeVars link
          else if vars.length = 4 then hpvFourVars link
          else (unknownRegistry, link, "")

/-- Embeds `GitlabPipelineImageInfo` (`dataCollectionGitlabPipelineImage.go`). -/
structure GitlabPipelineImageInfo where
  link : String
  name : String
  tag : String
  registry : String
  job : String
deriving DecidableEq, Repr

/-- An image record as built before parsing: only the link is set. -/
def imageInfoOfLink (s : String) : GitlabPipelineImageInfo :=
  { link := s, name := "", tag := "", registry := "", job := "" }

/-- Embeds `parseImageLink` (lines 562–619).  A link containing `$` is delegated to
`handlePresenceOfVariables` and returns at once; a link without a slash is a
plain Docker-Hub image and also returns at once; otherwise a dotted or
colon-carrying first segment is a custom registry, else Docker Hub is assumed,
and a final safety check restores the original link as the name when the
computed name is blank.  Note the two early returns bypass that safety
check. -/
def parseImageLink (img : GitlabPipelineImageInfo) : GitlabPipelineImageInfo :=
  let originalLink := img.link
  if goContains img.link "$" then
    let r := handlePresenceOfVariables img.link
    { img with registry := r.1, name := r.2.1, tag := r.2.2 }
  else
    let firstSlash := goIndex img.link "/"
    if firstSlash = -1 then
      let parts := goSplit img.link ":"
      { img with registry := dockerHubDomain, name := parts.getD 0 "",
                 tag := if parts.length > 1 then parts.getD 1 "" else img.tag,
                 link := dockerHubDomain ++ "/" ++ originalLink }
    else
      let registryPart := goUpTo img.link firstSlash
      let img1 :=
        if goContains registryPart "." ∨ goContains registryPart ":" then
          let remainingPart := goFrom img.link (firstSlash + 1)
          let parts := goSplit remainingPart ":"
          { img with registry := registryPart, name := parts.getD 0 "",
                     tag := if parts.length > 1 then parts.getD 1 ""
                            else img.tag }
        else
          let parts := goSplit img.link ":"
          { img with registry := dockerHubDomain, name := parts.getD 0 "",
                     tag := if parts.length > 1 then parts.getD 1 ""
                            else img.tag,
                     link := dockerHubDomain ++ "/" ++ originalLink }
      if goTrimSpace img1.name = "" ∧ ¬ goTrimSpace originalLink = "" then
        { img1 with name := originalLink, registry := unknownRegistry,
                    tag := "" }
      else img1

/-- C9.  Parsing `registry.example.com/team/$SERVICE:$VERSION` (with both
variables unresolved) yields registry `registry.example.com`, name
`team/$SERVICE` and tag `$VERSION`: the link contains `$`, none of the `::`,
`//` or leading-slash edge cases apply, and the deep-namespace branch fires
with the dotted first segment as registry and the single-variable suffix
`$VERSION` split off as the tag. -/
theorem parseImageLink_scenario_deep_namespace :
    (parseImageLink
        (imageInfoOfLink "registry.example.com/team/$SERVICE:$VERSION")) =
      { link := "registry.example.com/team/$SERVICE:$VERSION",
        name := "team/$SERVICE", tag := "$VERSION",
        registry := "registry.example.com", job := "" } := by
  decide

/-- C2.  The claim states the parser is total and never produces an empty
name from a non-empty input, on both the literal and the variable-laden
paths.  The code contains the intended safety net (`parseImageLink` lines
613–618 restore the original link when the computed name is blank) but two
early returns bypass it: the no-slash literal branch returns before the check,
so `":tag"` (split on `:` gives an empty first part) ends with an empty name,
and the variable path returns before the check, so `"a.b$/"` (deep-namespace
branch with an empty remainder after the slash) also ends with an empty name.
Both inputs are non-empty. -/
theorem parseImageLink_empty_name_bypasses_safety_check :
    (parseImageLink (imageInfoOfLink ":tag")).name = "" ∧
    (parseImageLink (imageInfoOfLink "a.b$/")).name = "" ∧
    (":tag" : String) ≠ "" ∧ ("a.b$/" : String) ≠ "" := by
  refine ⟨by decide, by decide, by decide, by decide⟩

/-! ## Provenance Resolver: the per-inclusion loop

Embedding of the inclusion loop of `GitlabPipelineOriginDataCollection.Run`
(`dataCollectionGitlabPipelineOrigin.go`, lines 509–792) together with
`ParseGitlabComponentPath` (lines 142–175).  External collaborators are
parameters of the environment: the include-origin fingerprint (JSON
marshalling followed by an FNV hash in the source) is `hashOf`, the
per-inclusion job fetch (`gitlab.FetchGitlabInclude`) is `fetchJobs` with
`none` for a fetch error, and the go-version operations back `IsUpToDate` as
before.  The catalog lookup tables (`GitlabCatalogComponentMap`,
`VersionMap`, `GitlabCatalogResources`) are taken as already built.  The Go
slice indexing `GitlabCatalogResources[resourceIndex]` is modelled with a
default for an out-of-range index, which the loop never produces for maps
built from the resource list. -/

/-- The result triple of `ParseGitlabComponentPath`. -/
structure ComponentPathParts where
  instanceName : String
  cleanPath : String
  version : String
deriving DecidableEq, Repr

/-- Embeds `ParseGitlabComponentPath` (lines 142–175): strip the instance prefix
(the configured server name or one of the `$CI_SERVER_*` placeholders), then
split off the `@version` suffix — only the first two pieces of the `@` split
are used. -/
def ParseGitlabComponentPath (path instanceURL : String) : ComponentPathParts :=
  let gitlabServerName := goTrimPre (goTrimPre instanceURL "https://") "http://"
  let p0 : String × String :=
    if goHasPre path (gitlabServerName ++ "/") then
      (gitlabServerName, goTrimPre path (gitlabServerName ++ "/"))
    else if goHasPre path "$CI_SERVER_FQDN/" then
      ("$CI_SERVER_FQDN", goTrimPre path "$CI_SERVER_FQDN/")
    else if goHasPre path "$CI_SERVER_HOST/" then
      ("$CI_SERVER_HOST", goTrimPre path "$CI_SERVER_HOST/")
    else if goHasPre path "$CI_SERVER_URL/" then
      ("$CI_SERVER_URL", goTrimPre path "$CI_SERVER_URL/")
    else ("", path)
  let componentSplit := goSplit p0.2 "@"
  if componentSplit.length > 1 then
    { instanceName := p0.1, cleanPath := componentSplit.getD 0 "",
      version := componentSplit.getD 1 "" }
  else
    { instanceName := p0.1, cleanPath := p0.2, version := "" }

/-- Embeds `GitlabPipelineJobData`: the mutable per-job record.  The field name
`isHardocded` keeps the source's spelling. -/
structure JobData where
  name : String
  jobExtends : List String
  lineCount : Nat
  isHardocded : Bool
  isOverridden : Bool
deriving DecidableEq, Repr

/-- Embeds `gitlab.IncludeOriginWithoutRef`. -/
structure IncludeOriginWithoutRef where
  location : String
  typ : String
  project : String
deriving DecidableEq, Repr

/-- Embeds `GitlabPipelineJobGitlabComponent`. -/
structure GitlabComponentInfo where
  repoFullPath : String
  repoWebPath : String
  repoName : String
  componentName : String
  componentIncludePath : String
  componentLatestVersion : String
deriving DecidableEq, Repr

def emptyComponentInfo : GitlabComponentInfo :=
  { repoFullPath := "", repoWebPath := "", repoName := "",
    componentName := "", componentIncludePath := "",
    componentLatestVersion := "" }

/-- One inclusion occurrence of the merged response
(`MergedResponse.CiConfig.Includes`): location, type, declared context
project, and the `project`/`ref` extras. -/
structure CIInclude where
  location : String
  typ : String
  contextProject : String
  extraProject : String
  extraRef : String
deriving DecidableEq, Repr

/-- Embeds `GitlabPipelineOriginDataFull`, restricted to the fields the loop
writes. -/
structure OriginDataFull where
  originType : String
  fromGitlabCatalog : Bool
  version : String
  upToDate : Bool
  nested : Bool
  includeOrigin : IncludeOriginWithoutRef
  originHash : Nat
  component : GitlabComponentInfo
  jobs : List JobData
deriving DecidableEq, Repr

/-- Embeds `gitlab.CICatalogResource`, restricted to the fields the loop reads. -/
structure CICatalogResource where
  name : String
  fullPath : String
  webPath : String
deriving DecidableEq, Repr

def emptyCatalogResource : CICatalogResource :=
  { name := "", fullPath := "", webPath := "" }

/-- The environment of the inclusion loop: project data, the pre-built
catalog tables, and the external collaborators as functions. -/
structure RunIncludeEnv where
  projectPath : String
  defaultBranch : String
  instanceURL : String
  catalogResources : List CICatalogResource
  catalogComponentMap : List (String × Nat)
  versionMap : List (String × List String)
  includeInputsMap : List (Nat × List (String × String))
  hashOf : IncludeOriginWithoutRef → Nat
  fetchJobs : CIInclude → List (String × String) → Option (List String)
  parseVersion : String → Option (List Nat)
  versionGE : List Nat → List Nat → Bool

/-- The mutable collection state the loop threads: the job table, the extends
map, the hardcoded map, and the origin list. -/
structure RunState where
  jobMap : List (String × JobData)
  jobExtendsMap : List (String × List String)
  jobHardcodedMap : List (String × Bool)
  origins : List OriginDataFull
deriving DecidableEq, Repr

/-- Initialisation of `originData` for one include (lines 536–556): empty
fields, nested iff the declared context project differs from the analysed
project, the include data as origin, and its fingerprint. -/
def initOriginData (env : RunIncludeEnv) (inc : CIInclude) : OriginDataFull :=
  let originRef : IncludeOriginWithoutRef :=
    { location := inc.location, typ := inc.typ, project := inc.extraProject }
  { originType := "", fromGitlabCatalog := false, version := "",
    upToDate := false, nested := inc.contextProject != env.projectPath,
    includeOrigin := originRef, originHash := env.hashOf originRef,
    component := emptyComponentInfo, jobs := [] }

/-- The type switch of the loop (lines 563–681).  For a component include:
parse the path, normalise the location without its version, re-fingerprint,
and when the clean path is known to the catalog, record the component data
and its up-to-date flag — except that an empty derived component name skips
the whole include (`continue`), modelled as `none`.  The other include types
only set the origin type (and, for a project file, the requested ref). -/
def classifyInclude (env : RunIncludeEnv) (inc : CIInclude)
    (o0 : OriginDataFull) : Option OriginDataFull :=
  if inc.typ = "component" then
    let parsed := ParseGitlabComponentPath inc.location env.instanceURL
    let location2 := parsed.instanceName ++ "/" ++ parsed.cleanPath
    let originRef2 : IncludeOriginWithoutRef :=
      { location := location2, typ := inc.typ, project := inc.extraProject }
    let o1 := { o0 with originType := "component", includeOrigin := originRef2,
                        originHash := env.hashOf originRef2,
                        version := parsed.version }
    match assocFind env.catalogComponentMap parsed.cleanPath with
    | none => some o1
    | some resourceIndex =>
      let res := env.catalogResources.getD resourceIndex emptyCatalogResource
      let latestVersion :=
        match assocFind env.versionMap parsed.cleanPath with
        | some (v :: _) => v
        | _ => ""
      let componentName := (goSplit parsed.cleanPath "/").getLastD ""
      if componentName = "" then none
      else
        some { o1 with
          fromGitlabCatalog := true,
          component :=
            { repoFullPath := res.fullPath ++ "/" ++ componentName,
              repoWebPath := res.webPath, repoName := res.name,
              componentName := componentName,
              componentIncludePath :=
                parsed.instanceName ++ "/" ++ parsed.cleanPath,
              componentLatestVersion := latestVersion },
          upToDate := IsUpToDate env.parseVersion env.versionGE parsed.version
            latestVersion (latestRefsFor env.defaultBranch) }
  else if inc.typ = "file" then
    some { o0 with originType := "project", version := inc.extraRef }
  else if inc.typ = "local" then some { o0 with originType := "local" }
  else if inc.typ = "remote" then some { o0 with originType := "remote" }
  else if inc.typ = "template" then some { o0 with originType := "template" }
  else some o0

/-- The attribution step shared by both attribution loops (lines 725–789): a
job present in the job table has its hardcoded flag cleared and its
overridden flag set when it sits in the hardcoded map, and the (possibly
updated) record is appended to the origin's job list; a job missing from the
table is skipped. -/
def attributeJob : RunState × OriginDataFull → String → RunState × OriginDataFull
  | (st, o), jobName =>
    match assocFind st.jobMap jobName with
    | none => (st, o)
    | some jd =>
      if assocHasKey st.jobHardcodedMap jobName then
        let jd2 := { jd with isHardocded := false, isOverridden := true }
        ({ st with
            jobHardcodedMap := assocUpdate st.jobHardcodedMap jobName false,
            jobMap := assocUpdate st.jobMap jobName jd2 },
         { o with jobs := o.jobs ++ [jd2] })
      else (st, { o with jobs := o.jobs ++ [jd] })

/-- The first attribution loop (lines 725–758): every job extending a job
introduced by the include is attributed. -/
def attributeExtendedJobs (acc : RunState × OriginDataFull)
    (sources : List String) : RunState × OriginDataFull :=
  sources.foldl (fun acc src =>
    match assocFind acc.1.jobExtendsMap src with
    | none => acc
    | some dependents => dependents.foldl attributeJob acc) acc

/-- One iteration of the inclusion loop (lines 509–792).  Returns the updated
state and whether a per-inclusion job fetch was attempted.  A nested include
is appended with an explicitly empty job list and skips the fetch; a fetch
error drops the include (`continue`); otherwise both attribution loops run
and the origin is appended. -/
def processInclude (env : RunIncludeEnv) (st : RunState) (inc : CIInclude) :
    RunState × Bool :=
  let isNested := inc.contextProject != env.projectPath
  match classifyInclude env inc (initOriginData env inc) with
  | none => (st, false)
  | some o =>
    if isNested then
      ({ st with origins := st.origins ++ [{ o with jobs := [] }] }, false)
    else
      let inputs := (env.includeInputsMap.lookup o.originHash).getD []
      match env.fetchJobs inc inputs with
      | none => (st, true)
      | some jobsFromInclude =>
        let acc1 := attributeExtendedJobs (st, o) jobsFromInclude
        let acc2 := jobsFromInclude.foldl attributeJob acc1
        ({ acc2.1 with origins := acc2.1.origins ++ [acc2.2] }, true)

/-- The `classifyInclude` step never changes the nested flag or the job list set up by
the initialisation. -/
theorem classifyInclude_preserves_nested_and_jobs
    (env : RunIncludeEnv) (inc : CIInclude) (o0 o : OriginDataFull)
    (h : classifyInclude env inc o0 = some o) :
    o.nested = o0.nested ∧ o.jobs = o0.jobs := by
  unfold classifyInclude at h
  split at h
  · dsimp only at h
    split at h
    · cases h
      exact ⟨rfl, rfl⟩
    · split at h
      · cases h
      · cases h
        exact ⟨rfl, rfl⟩
  · split at h
    · cases h
      exact ⟨rfl, rfl⟩
    · split at h
      · cases h
        exact ⟨rfl, rfl⟩
      · split at h
        · cases h
          exact ⟨rfl, rfl⟩
        · split at h
          · cases h
            exact ⟨rfl, rfl⟩
          · cases h
            exact ⟨rfl, rfl⟩

/-- C5 (amended).  Processing an inclusion whose declared context project
differs from the analysed project performs no per-inclusion job fetch and
changes no job's hardcoded/overridden flags, and it produces at most one
Origin: either an Origin with an empty job list, or — in the corner case of a
catalog-matched component include whose derived component name is empty — no
Origin at all. -/
theorem processInclude_nested_no_fetch_no_flags
    (env : RunIncludeEnv) (st : RunState) (inc : CIInclude)
    (h : inc.contextProject ≠ env.projectPath) :
    (processInclude env st inc).2 = false ∧
    (processInclude env st inc).1.jobMap = st.jobMap ∧
    (processInclude env st inc).1.jobHardcodedMap = st.jobHardcodedMap ∧
    (processInclude env st inc).1.jobExtendsMap = st.jobExtendsMap ∧
    ((processInclude env st inc).1.origins = st.origins ∨
      ∃ o, (processInclude env st inc).1.origins = st.origins ++ [o] ∧
        o.jobs = [] ∧ o.nested = true) := by
  have hb : (inc.contextProject != env.projectPath) = true := by
    simpa using h
  unfold processInclude
  cases hcl : classifyInclude env inc (initOriginData env inc) with
  | none =>
    exact ⟨by trivial, by trivial, by trivial, by trivial, Or.inl (by trivial)⟩
  | some o =>
    have hnested : o.nested = true := by
      have := (classifyInclude_preserves_nested_and_jobs env inc _ o hcl).1
      rw [this]
      simpa [initOriginData] using hb
    simp only [hb, if_true]
    exact ⟨by trivial, by trivial, by trivial, by trivial,
      Or.inr ⟨{ o with jobs := [] }, by trivial, by trivial, hnested⟩⟩

/-- A non-nested concrete environment and state for the witness and
counterexample below. -/
def c5Env : RunIncludeEnv where
  projectPath := "group/proj"
  defaultBranch := "main"
  instanceURL := "https://gitlab.com"
  catalogResources :=
    [{ name := "comp", fullPath := "group/comp", webPath := "/group/comp" }]
  catalogComponentMap := [("", 0)]
  versionMap := []
  includeInputsMap := []
  hashOf := fun _ => 0
  fetchJobs := fun _ _ => none
  parseVersion := fun _ => none
  versionGE := fun _ _ => false

def c5State : RunState where
  jobMap := []
  jobExtendsMap := []
  jobHardcodedMap := []
  origins := []

/-- A nested component include whose location strips to an empty clean path:
`ParseGitlabComponentPath "gitlab.com/" "https://gitlab.com"` yields clean
path `""`, which the catalog map above knows, and whose last path segment is
empty. -/
def c5Include : CIInclude where
  location := "gitlab.com/"
  typ := "component"
  contextProject := "other/proj"
  extraProject := ""
  extraRef := ""

/-- C5 counterexample.  The claim says every nested inclusion produces an
Origin with an empty job list.  For the nested component include above, the
catalog lookup succeeds and the derived component name is empty, so the
source `continue`s (line 640) before the nested check: no Origin at all is
appended.  The rest of the claim holds — no fetch, no flag change. -/
theorem processInclude_nested_can_produce_no_origin :
    c5Include.contextProject ≠ c5Env.projectPath ∧
    (¬ ∃ o, (processInclude c5Env c5State c5Include).1.origins =
        c5State.origins ++ [o] ∧ o.jobs = []) ∧
    processInclude c5Env c5State c5Include = (c5State, false) := by
  refine ⟨by decide, ?_, by decide⟩
  rintro ⟨o, ho, -⟩
  rw [show (processInclude c5Env c5State c5Include).1.origins = [] from rfl]
    at ho
  simp [c5State] at ho

/-- A nested local-file include, the common case. -/
def c5LocalInclude : CIInclude where
  location := "templates/ci.yml"
  typ := "local"
  contextProject := "other/proj"
  extraProject := ""
  extraRef := ""

/-- Witness for the amended C5 at the nested local include: the theorem
applied at a concrete nested input. -/
theorem processInclude_nested_no_fetch_no_flags_witness :
    (processInclude c5Env c5State c5LocalInclude).2 = false ∧
    (processInclude c5Env c5State c5LocalInclude).1.jobMap =
      c5State.jobMap ∧
    (processInclude c5Env c5State c5LocalInclude).1.jobHardcodedMap =
      c5State.jobHardcodedMap ∧
    (processInclude c5Env c5State c5LocalInclude).1.jobExtendsMap =
      c5State.jobExtendsMap ∧
    ((processInclude c5Env c5State c5LocalInclude).1.origins =
        c5State.origins ∨
      ∃ o, (processInclude c5Env c5State c5LocalInclude).1.origins =
          c5State.origins ++ [o] ∧ o.jobs = [] ∧ o.nested = true) :=
  processInclude_nested_no_fetch_no_flags c5Env c5State c5LocalInclude
    (by decide)

end Plumber
